import Mathlib

/-!
# Verification of the `sandmanscanga/Blockchain` ledger core

A shallow embedding of `src/blockchain/blockchain.py` (class `Blockchain`):
block hashing (`hashlib.sha256` over `json.dumps(block, sort_keys=True)`),
proof-of-work, chain validation, conflict resolution, node registration
(CPython ≥ 3.11 `urllib.parse.urlparse`), and the ledger state operations.

Machine integers do not occur: Python's `int` is unbounded, so proofs and
indices are `Int`/`Nat`.  SHA-256 is implemented concretely over byte lists
(32-bit words as `Nat` reduced mod 2^32) so that digests evaluate in the
kernel.
-/

/-! ## SHA-256 over byte lists (bytes are `Nat < 256`, words are `Nat < 2^32`) -/

/-- Addition of 32-bit words. -/
def add32 (a b : Nat) : Nat := (a + b) % 4294967296

/-- Right rotation of a 32-bit word by `n` bits. -/
def rotr (n x : Nat) : Nat := (x >>> n) ||| ((x <<< (32 - n)) % 4294967296)

/-- SHA-256 big sigma 0. -/
def bigS0 (x : Nat) : Nat := rotr 2 x ^^^ rotr 13 x ^^^ rotr 22 x

/-- SHA-256 big sigma 1. -/
def bigS1 (x : Nat) : Nat := rotr 6 x ^^^ rotr 11 x ^^^ rotr 25 x

/-- SHA-256 small sigma 0. -/
def smallS0 (x : Nat) : Nat := rotr 7 x ^^^ rotr 18 x ^^^ (x >>> 3)

/-- SHA-256 small sigma 1. -/
def smallS1 (x : Nat) : Nat := rotr 17 x ^^^ rotr 19 x ^^^ (x >>> 10)

/-- The 64 SHA-256 round constants of FIPS 180-4, written in decimal. -/
def shaK : List Nat :=
  [1116352408, 1899447441, 3049323471, 3921009573, 961987163,
   1508970993, 2453635748, 2870763221, 3624381080, 310598401,
   607225278, 1426881987, 1925078388, 2162078206, 2614888103,
   3248222580, 3835390401, 4022224774, 264347078, 604807628,
   770255983, 1249150122, 1555081692, 1996064986, 2554220882,
   2821834349, 2952996808, 3210313671, 3336571891, 3584528711,
   113926993, 338241895, 666307205, 773529912, 1294757372,
   1396182291, 1695183700, 1986661051, 2177026350, 2456956037,
   2730485921, 2820302411, 3259730800, 3345764771, 3516065817,
   3600352804, 4094571909, 275423344, 430227734, 506948616,
   659060556, 883997877, 958139571, 1322822218, 1537002063,
   1747873779, 1955562222, 2024104815, 2227730452, 2361852424,
   2428436474, 2756734187, 3204031479, 3329325298]

/-- The SHA-256 initial hash value (8 words), written in decimal. -/
def shaH0 : List Nat :=
  [1779033703, 3144134277, 1013904242, 2773480762,
   1359893119, 2600822924, 528734635, 1541459225]

/-- Group a byte list into big-endian 32-bit words (4 bytes each). -/
def toWords : List Nat → List Nat
  | b0 :: b1 :: b2 :: b3 :: rest =>
      (((b0 * 256 + b1) * 256 + b2) * 256 + b3) :: toWords rest
  | _ => []

/-- Message-schedule extension: `acc` holds the words produced so far in
reverse order; `fuel` more words are appended. -/
def extendW : Nat → List Nat → List Nat
  | 0, acc => acc.reverse
  | fuel + 1, acc =>
      let w2 := acc.getD 1 0
      let w7 := acc.getD 6 0
      let w15 := acc.getD 14 0
      let w16 := acc.getD 15 0
      extendW fuel (add32 (add32 (smallS1 w2) w7) (add32 (smallS0 w15) w16) :: acc)

/-- The 8-register SHA-256 working state. -/
structure Regs where
  a : Nat
  b : Nat
  c : Nat
  d : Nat
  e : Nat
  f : Nat
  g : Nat
  h : Nat

/-- One SHA-256 compression round with round constant `k` and schedule word `w`. -/
def shaRound (st : Regs) (kw : Nat × Nat) : Regs :=
  let ch := (st.e &&& st.f) ^^^ ((st.e ^^^ 4294967295) &&& st.g)
  let maj := (st.a &&& st.b) ^^^ (st.a &&& st.c) ^^^ (st.b &&& st.c)
  let t1 := add32 (add32 (add32 st.h (bigS1 st.e)) (add32 ch kw.1)) kw.2
  let t2 := add32 (bigS0 st.a) maj
  ⟨add32 t1 t2, st.a, st.b, st.c, add32 st.d t1, st.e, st.f, st.g⟩

/-- Compress one 64-byte chunk (given as its 16 words) into the running hash. -/
def shaCompress (hs : List Nat) (chunkWords : List Nat) : List Nat :=
  let ws := extendW 48 chunkWords.reverse
  let init : Regs :=
    ⟨hs.getD 0 0, hs.getD 1 0, hs.getD 2 0, hs.getD 3 0,
     hs.getD 4 0, hs.getD 5 0, hs.getD 6 0, hs.getD 7 0⟩
  let st := (shaK.zip ws).foldl shaRound init
  [add32 (hs.getD 0 0) st.a, add32 (hs.getD 1 0) st.b,
   add32 (hs.getD 2 0) st.c, add32 (hs.getD 3 0) st.d,
   add32 (hs.getD 4 0) st.e, add32 (hs.getD 5 0) st.f,
   add32 (hs.getD 6 0) st.g, add32 (hs.getD 7 0) st.h]

/-- Split a byte list into 64-byte chunks (structural recursion on a fuel
argument so that the kernel can evaluate it; the fuel is an upper bound on
the number of chunks). -/
def chunk64Go : Nat → List Nat → List (List Nat)
  | 0, _ => []
  | _, [] => []
  | fuel + 1, bs => bs.take 64 :: chunk64Go fuel (bs.drop 64)

/-- Split a byte list into 64-byte chunks. -/
def chunk64 (bs : List Nat) : List (List Nat) := chunk64Go (bs.length + 1) bs

/-- A natural number as `n` big-endian bytes. -/
def beBytes : Nat → Nat → List Nat
  | 0, _ => []
  | k + 1, v => v / 256 ^ k % 256 :: beBytes k v

/-- SHA-256 message padding: a `0x80` byte, zeros to 56 mod 64, then the
bit length as 8 big-endian bytes. -/
def shaPad (msg : List Nat) : List Nat :=
  let L := msg.length
  let z := (120 - (L + 1) % 64) % 64
  msg ++ 0x80 :: List.replicate z 0 ++ beBytes 8 (8 * L)

/-- SHA-256 of a byte list, as the 32 digest bytes. -/
def sha256 (msg : List Nat) : List Nat :=
  let final := (chunk64 (shaPad msg)).foldl (fun hs c => shaCompress hs (toWords c)) shaH0
  final.foldr (fun w acc => beBytes 4 w ++ acc) []

/-- Lower-case hex digit for `n < 16`. -/
def hexChar (n : Nat) : Char :=
  if n < 10 then Char.ofNat (48 + n) else Char.ofNat (87 + n)

/-- Lower-case hex string of a byte list (2 digits per byte), as Python's
`hexdigest()` renders a digest. -/
def hexString (bs : List Nat) : String :=
  String.mk (bs.foldr (fun b acc => hexChar (b / 16) :: hexChar (b % 16) :: acc) [])

/-- UTF-8 encoding of one character. -/
def utf8Char (c : Char) : List Nat :=
  let n := c.toNat
  if n < 0x80 then [n]
  else if n < 0x800 then [0xC0 + n / 64, 0x80 + n % 64]
  else if n < 0x10000 then [0xE0 + n / 4096, 0x80 + n / 64 % 64, 0x80 + n % 64]
  else [0xF0 + n / 262144, 0x80 + n / 4096 % 64, 0x80 + n / 64 % 64, 0x80 + n % 64]

/-- UTF-8 encoding of a string (Python's `str.encode("utf8")`). -/
def utf8 (s : String) : List Nat :=
  s.data.foldr (fun c acc => utf8Char c ++ acc) []

/-- `hashlib.sha256(...).hexdigest()` of the UTF-8 bytes of a string. -/
def sha256Hex (s : String) : String := hexString (sha256 (utf8 s))

/-! ## `json.dumps(..., sort_keys=True)`

Python compares strings by code points; we implement that order structurally
(the core `String` order does not evaluate in the kernel). -/

/-- Code-point lexicographic `≤` on character lists — Python's string order. -/
def charListLe : List Char → List Char → Bool
  | [], _ => true
  | _ :: _, [] => false
  | a :: as, b :: bs =>
      if a.toNat < b.toNat then true
      else if b.toNat < a.toNat then false
      else charListLe as bs

/-- Code-point lexicographic `≤` on strings. -/
def strLe (a b : String) : Bool := charListLe a.data b.data

/-- Key order used by `sort_keys=True`: compare the keys of two entries. -/
def keyLE {α : Type} (a b : String × α) : Prop := strLe a.1 b.1 = true

instance {α : Type} : DecidableRel (@keyLE α) :=
  fun a b => inferInstanceAs (Decidable (strLe a.1 b.1 = true))

/-- Four lower-case hex digits (for `\uXXXX` escapes, as Python emits them). -/
def hex4 (n : Nat) : List Char :=
  [hexChar (n / 4096 % 16), hexChar (n / 256 % 16), hexChar (n / 16 % 16), hexChar (n % 16)]

/-- JSON escaping of one character, as Python's `json.dumps` with the default
`ensure_ascii=True` renders it (short escapes for the common controls,
`\uXXXX` for other controls and all non-ASCII, surrogate pairs above BMP). -/
def jsonEscapeChar (c : Char) : List Char :=
  let n := c.toNat
  if c = '"' then ['\\', '"']
  else if c = '\\' then ['\\', '\\']
  else if c = '\n' then ['\\', 'n']
  else if c = '\r' then ['\\', 'r']
  else if c = '\t' then ['\\', 't']
  else if n = 8 then ['\\', 'b']
  else if n = 12 then ['\\', 'f']
  else if n < 32 then '\\' :: 'u' :: hex4 n
  else if n < 127 then [c]
  else if n < 65536 then '\\' :: 'u' :: hex4 n
  else
    '\\' :: 'u' :: hex4 (55296 + (n - 65536) / 1024) ++
      '\\' :: 'u' :: hex4 (56320 + (n - 65536) % 1024)

/-- A JSON string literal as `json.dumps` renders it. -/
def jsonQuote (s : String) : String :=
  String.mk ('"' :: s.data.foldr (fun c acc => jsonEscapeChar c ++ acc) ['"'])

/-- `", ".join(...)` — the default item separator of `json.dumps`. -/
def joinComma : List String → String
  | [] => ""
  | [x] => x
  | x :: xs => x ++ ", " ++ joinComma xs

/-- Dump a JSON object from its entry list: keys sorted (`sort_keys=True`),
`": "` between key and value, `", "` between entries — exactly the default
`json.dumps` layout. -/
def dictDumps {α : Type} (dumpV : α → String) (kvs : List (String × α)) : String :=
  "\x7b" ++
    joinComma ((List.insertionSort keyLE kvs).map fun kv => jsonQuote kv.1 ++ ": " ++ dumpV kv.2) ++
    "\x7d"

/-- Dump a JSON array. -/
def listDumps {α : Type} (dumpV : α → String) (xs : List α) : String :=
  "[" ++ joinComma (xs.map dumpV) ++ "]"

/-! ## Data model

A transaction is the dict built by `new_transaction`; a block is the dict
built by `new_block`.  Python's unbounded `int` is `Int`.  Numeric amounts
and timestamps are modelled as integers (no claim depends on float
formatting); the genesis timestamp is the int `0` as in the source. -/

/-- A transaction: the dict `{sender, recipient, amount}`. -/
structure Tx where
  sender : String
  recipient : String
  amount : Int
deriving DecidableEq

/-- A primitive JSON value occurring in a transaction dict. -/
inductive JPrim where
  | str (s : String)
  | int (n : Int)
deriving DecidableEq

/-- Dump a primitive JSON value. -/
def dumpJPrim : JPrim → String
  | .str s => jsonQuote s
  | .int n => toString n

/-- The entry list of a transaction dict, in the construction order of
`new_transaction` (`json.dumps` then sorts the keys). -/
def Tx.dict (t : Tx) : List (String × JPrim) :=
  [("sender", .str t.sender), ("recipient", .str t.recipient), ("amount", .int t.amount)]

/-- Serialize one transaction dict. -/
def dumpTx (t : Tx) : String := dictDumps dumpJPrim t.dict

/-- A JSON value occurring in a block dict. -/
inductive JVal where
  | str (s : String)
  | int (n : Int)
  | txs (ts : List Tx)
deriving DecidableEq

/-- Dump a JSON value of a block dict. -/
def dumpJVal : JVal → String
  | .str s => jsonQuote s
  | .int n => toString n
  | .txs ts => listDumps dumpTx ts

/-- A block: the dict built by `new_block`. -/
structure Block where
  index : Int
  timestamp : Int
  transactions : List Tx
  proof : Int
  previous_hash : String
deriving DecidableEq

/-- The entry list of a block dict, in the construction order of `new_block`
(`json.dumps(..., sort_keys=True)` then sorts the keys). -/
def Block.dict (b : Block) : List (String × JVal) :=
  [("index", .int b.index), ("timestamp", .int b.timestamp),
   ("transactions", .txs b.transactions), ("proof", .int b.proof),
   ("previous_hash", .str b.previous_hash)]

/-- Hash of a generic JSON object (entry list): `sort_keys=True` dump, then
SHA-256 hex digest. -/
def dictHash (kvs : List (String × JVal)) : String := sha256Hex (dictDumps dumpJVal kvs)


/-! ## The `Blockchain` class

State: `chain`, `transactions` (the pending buffer) and `nodes`, as set up in
`__init__`.  Methods that can raise return `Except PyErr`; a raise aborts the
call and surfaces the error to the caller, as in Python.  `time()` is passed
in explicitly as the `now` argument where the source reads the clock. -/

/-- The Python exceptions the embedded code can raise. -/
inductive PyErr where
  /-- `IndexError` — sequence index out of range (`chain[0]`, `chain[-1]`). -/
  | indexError
  /-- `ValueError` — raised by `register_node` and by `urlsplit`. -/
  | valueError
  /-- `requests.exceptions.ConnectionError` — `requests.get` on an unreachable peer. -/
  | connectionError
deriving DecidableEq

/-- The state of a `Blockchain` instance: `self.chain`, `self.transactions`,
`self.nodes`. -/
structure Blockchain where
  chain : List Block
  transactions : List Tx
  nodes : Finset String
deriving DecidableEq

/-- `Blockchain.hash` (staticmethod): SHA-256 hex digest of
`json.dumps(block, sort_keys=True).encode("utf8")`. -/
def Blockchain.hash (block : Block) : String :=
  sha256Hex (dictDumps dumpJVal block.dict)

/-- `Blockchain.valid_proof` (staticmethod): SHA-256 hex digest of
`f"{last_proof}{proof}{last_hash}".encode("utf8")`, valid iff the first four
hex characters are `"0000"`. -/
def Blockchain.valid_proof (last_proof proof : Int) (last_hash : String) : Bool :=
  let guess := toString last_proof ++ toString proof ++ last_hash
  let guess_hash := sha256Hex guess
  guess_hash.take 4 == "0000"

/-- The body of `valid_chain`'s `while` loop: scan the chain from the block
after `last_block`, failing at the first block whose stored `previous_hash`
differs from the recomputed hash of its predecessor or whose proof fails
`valid_proof`. -/
def valid_chain_from (last_block : Block) : List Block → Bool
  | [] => true
  | block :: rest =>
      let last_block_hash := Blockchain.hash last_block
      if block.previous_hash != last_block_hash then false
      else if !(Blockchain.valid_proof last_block.proof block.proof last_block_hash) then false
      else valid_chain_from block rest

/-- `Blockchain.valid_chain`: `last_block = chain[0]` raises `IndexError` on
an empty chain; otherwise walk the chain from the second block. -/
def Blockchain.valid_chain (chain : List Block) : Except PyErr Bool :=
  match chain with
  | [] => .error .indexError
  | first :: rest => .ok (valid_chain_from first rest)

/-- `Blockchain.last_block` (property): `self.chain[-1]`, `IndexError` when
the chain is empty. -/
def Blockchain.last_block (self : Blockchain) : Except PyErr Block :=
  match self.chain.getLast? with
  | some b => .ok b
  | none => .error .indexError

/-- `Blockchain.new_block`: build the block dict (computing
`previous_hash or self.hash(self.last_block)` — Python's `or` takes the
hash whenever the argument is falsy, i.e. `None` or `""`), then clear the
pending buffer, append the block and return it.  `now` is the value of
`time()`; the genesis call sees an empty chain and stores the int `0`. -/
def Blockchain.new_block (self : Blockchain) (proof : Int) (previous_hash : Option String)
    (now : Int) : Except PyErr (Block × Blockchain) := do
  let ph : String ←
    match previous_hash with
    | some s => if s = "" then do pure (Blockchain.hash (← self.last_block)) else pure s
    | none => do pure (Blockchain.hash (← self.last_block))
  let block : Block :=
    { index := (self.chain.length : Int) + 1
      timestamp := if self.chain.isEmpty then 0 else now
      transactions := self.transactions
      proof := proof
      previous_hash := ph }
  pure (block, { self with transactions := [], chain := self.chain ++ [block] })

/-- `Blockchain.__init__`: empty chain, buffer and node set, then the genesis
call `new_block(previous_hash="1", proof=1)`.  The genesis call cannot raise
(its `previous_hash` is truthy), so the fallback branch is dead. -/
def Blockchain.init : Blockchain :=
  match Blockchain.new_block ⟨[], [], ∅⟩ 1 (some "1") 0 with
  | .ok (_, self) => self
  | .error _ => ⟨[], [], ∅⟩

/-- `Blockchain.new_transaction`: append the transaction dict to the pending
buffer, then return `self.last_block["index"] + 1`. -/
def Blockchain.new_transaction (self : Blockchain) (sender recipient : String)
    (amount : Int) : Except PyErr (Int × Blockchain) := do
  let self' := { self with transactions := self.transactions ++ [⟨sender, recipient, amount⟩] }
  let lb ← self'.last_block
  pure (lb.index + 1, self')

/-- `Blockchain.proof_of_work`: starting from 0, increment until
`valid_proof(last_proof, proof, last_hash)` holds — i.e. the least such
proof.  The unbounded `while` loop terminates exactly on the hypothesis that
some valid proof exists, which the definition takes as an argument. -/
def pow_search (last_proof : Int) (last_hash : String)
    (hex : ∃ p : Nat, Blockchain.valid_proof last_proof p last_hash = true) : Nat :=
  Nat.find hex

/-- `Blockchain.proof_of_work` on the ledger state: searches from
`last_proof = self.last_block["proof"]` and `last_hash = self.hash(self.last_block)`. -/
def Blockchain.proof_of_work (self : Blockchain) (h : self.chain ≠ [])
    (hex : ∃ p : Nat, Blockchain.valid_proof (self.chain.getLast h).proof p
      (Blockchain.hash (self.chain.getLast h)) = true) : Nat :=
  pow_search (self.chain.getLast h).proof (Blockchain.hash (self.chain.getLast h)) hex

/-! ## Conflict resolution

`resolve_conflicts` performs one `requests.get` per registered node, in the
set's iteration order.  The network is modelled by the list of outcomes of
those requests, one per peer: either the request raised
(`ConnectionError`, for an unreachable peer) or a response arrived with a
status code and a JSON body `{"length": ..., "chain": ...}` (the body is
modelled well-typed; `length` is any integer the peer chooses to report and
need not match the length of `chain`). -/

/-- The outcome of one `requests.get(f"http://{node}/chain")`. -/
inductive FetchResult where
  /-- `requests.get` raised (unreachable peer). -/
  | connError
  /-- A response with its status code and decoded JSON body. -/
  | response (status : Nat) (length : Int) (chain : List Block)
deriving DecidableEq

/-- The peer-scanning loop of `resolve_conflicts`: thread `max_length` and
`new_chain` through the fetch outcomes.  A raised `ConnectionError`
propagates; a status other than 200/304 skips the peer; otherwise
`valid_chain` runs (and may itself raise), and a reported length beyond
`max_length` together with a valid chain adopts the candidate. -/
def resolve_loop (max_length : Int) (new_chain : Option (List Block)) :
    List FetchResult → Except PyErr (Option (List Block))
  | [] => .ok new_chain
  | .connError :: _ => .error .connectionError
  | .response status length chain :: rest =>
      if status = 200 ∨ status = 304 then
        match Blockchain.valid_chain chain with
        | .error e => .error e
        | .ok is_valid =>
            if max_length < length ∧ is_valid = true then
              resolve_loop length (some chain) rest
            else
              resolve_loop max_length new_chain rest
      else
        resolve_loop max_length new_chain rest

/-- `Blockchain.resolve_conflicts`: scan all peers starting from
`max_length = len(self.chain)`; afterwards `if new_chain:` (Python
truthiness: not `None` and non-empty) replaces the chain and reports `True`. -/
def Blockchain.resolve_conflicts (self : Blockchain) (fetches : List FetchResult) :
    Except PyErr (Bool × Blockchain) :=
  match resolve_loop (self.chain.length : Int) none fetches with
  | .error e => .error e
  | .ok none => .ok (false, self)
  | .ok (some new_chain) =>
      if new_chain.isEmpty then .ok (false, self)
      else .ok (true, { self with chain := new_chain })

/-! ## Node registration

`urllib.parse.urlparse` as in CPython ≥ 3.11 (the version the repository
runs under today), restricted to what `register_node` consumes: the `netloc`
and `path` components.  Modelled faithfully for ASCII addresses: the
tab/CR/LF removal, the scheme split (which requires a leading ASCII letter
and strips up to the first `:`), the `//`-prefixed netloc split, the
mismatched-`[`/`]` `ValueError`, and the fragment/query cuts.  CPython's
additional validation of bracketed IPv6 hosts and its NFKC check for
non-ASCII netlocs are not modelled. -/

/-- A character of `urllib.parse.scheme_chars`. -/
def isSchemeChar (c : Char) : Bool :=
  c.isAlpha || c.isDigit || c == '+' || c == '-' || c == '.'

/-- Drop a leading `scheme:` if the part before the first `:` is a valid
scheme (non-empty, leading ASCII letter, scheme characters only). -/
def splitScheme (s : List Char) : List Char :=
  match s.findIdx? (fun c => c == ':') with
  | some i =>
      if 0 < i ∧ (s.headD ' ').isAlpha = true ∧ (s.take i).all isSchemeChar = true
      then s.drop (i + 1) else s
  | none => s

/-- After `//`, the netloc runs to the first `/`, `?` or `#`
(`_splitnetloc`); without the `//` prefix there is no netloc. -/
def splitNetloc (s : List Char) : List Char × List Char :=
  if s.take 2 = ['/', '/'] then
    let rest := s.drop 2
    let i := rest.findIdx (fun c => c == '/' || c == '?' || c == '#')
    (rest.take i, rest.drop i)
  else ([], s)

/-- `urlparse(address)`, reduced to the `(netloc, path)` pair that
`register_node` reads. -/
def urlparse_netloc_path (address : String) : Except PyErr (String × String) :=
  let u0 := address.data.filter (fun c => !(c == '\t' || c == '\r' || c == '\n'))
  let u1 := splitScheme u0
  let (netloc, u2) := splitNetloc u1
  if (netloc.contains '[' != netloc.contains ']') then .error .valueError
  else
    let path := (u2.takeWhile (fun c => c != '#')).takeWhile (fun c => c != '?')
    .ok (String.mk netloc, String.mk path)

/-- `Blockchain.register_node`: add `parsed_url.netloc` if truthy, else
`parsed_url.path` if truthy, else raise `ValueError`. -/
def Blockchain.register_node (self : Blockchain) (node_address : String) :
    Except PyErr Blockchain := do
  let (netloc, path) ← urlparse_netloc_path node_address
  if netloc ≠ "" then pure { self with nodes := insert netloc self.nodes }
  else if path ≠ "" then pure { self with nodes := insert path self.nodes }
  else .error .valueError

/-! ## Concrete values

The genesis block as `__init__` creates it, its digest, and the two smallest
proof-of-work solutions relative to it (`valid_proof(1, 56868, H)` and
`valid_proof(1, 130456, H)` both hold). -/

/-- The genesis block of every fresh ledger. -/
def genesis_block : Block := ⟨1, 0, [], 1, "1"⟩

/-- `Blockchain.hash genesis_block`, precomputed. -/
def genesisHex : String :=
  "66bc4418b1f91fc1f05d16c54fad73ea5cd3878002b9006f28413c6880d53345"

/-- A block extending the genesis block with a correct proof of work. -/
def block2 : Block := ⟨2, 111, [], 56868, genesisHex⟩

/-- A second block extending the genesis block: same as `block2` except for
its proof, which is the next proof-of-work solution after `block2.proof`. -/
def block2' : Block := ⟨2, 111, [], 130456, genesisHex⟩

/-! ## Chain validity: characterization -/

/-- The two per-link checks of `valid_chain`: the stored `previous_hash` of a
block equals the recomputed hash of its predecessor, and the pair of proofs
passes `valid_proof` against that hash. -/
def linkOK (a b : Block) : Prop :=
  b.previous_hash = Blockchain.hash a ∧
  Blockchain.valid_proof a.proof b.proof (Blockchain.hash a) = true

/-- The scanning loop accepts exactly the chains all of whose adjacent pairs
pass both checks. -/
theorem valid_chain_from_iff (a : Block) (l : List Block) :
    valid_chain_from a l = true ↔ List.Chain' linkOK (a :: l) := by
  induction l generalizing a with
  | nil => simp [valid_chain_from]
  | cons b rest ih =>
      rw [List.chain'_cons]
      by_cases h1 : b.previous_hash = Blockchain.hash a
      · by_cases h2 : Blockchain.valid_proof a.proof b.proof (Blockchain.hash a) = true
        · simp [valid_chain_from, h1, h2, linkOK, ih b]
        · simp [valid_chain_from, h1, h2, linkOK]
      · simp [valid_chain_from, h1, linkOK]

/-- C2: for well-formed candidate chains, `valid_chain` returns `True` iff
every block from the second onward stores the recomputed hash of its
predecessor as `previous_hash` and passes `valid_proof` against it, and a
single-block chain is trivially valid.  (The claim's final clause — that any
mutation of a single block's proof necessarily invalidates the chain — is
refuted by `valid_chain_last_proof_mutation`; this theorem is the amended
claim.) -/
theorem valid_chain_characterization :
    (∀ (c : List Block), c ≠ [] →
      (Blockchain.valid_chain c = .ok true ↔
        ∀ (i : Nat) (h : i + 1 < c.length),
          (c.get ⟨i + 1, h⟩).previous_hash = Blockchain.hash (c.get ⟨i, Nat.lt_of_succ_lt h⟩) ∧
          Blockchain.valid_proof (c.get ⟨i, Nat.lt_of_succ_lt h⟩).proof
            (c.get ⟨i + 1, h⟩).proof
            (Blockchain.hash (c.get ⟨i, Nat.lt_of_succ_lt h⟩)) = true)) ∧
    (∀ b : Block, Blockchain.valid_chain [b] = .ok true) := by
  constructor
  · intro c hc
    match c, hc with
    | first :: rest, _ =>
      have hch : Blockchain.valid_chain (first :: rest) = .ok true ↔
          List.Chain' linkOK (first :: rest) := by
        simpa [Blockchain.valid_chain] using valid_chain_from_iff first rest
      rw [hch, List.chain'_iff_get]
      constructor
      · intro hall i h
        exact hall i (by simp at h ⊢; omega)
      · intro hall i h
        exact hall i (by simp at h ⊢; omega)
  · intro b
    rfl

set_option maxRecDepth 1000000 in
/-- C2 witness: the concrete two-block chain `[genesis_block, block2]`
satisfies both link checks, so the characterization yields validity. -/
theorem valid_chain_characterization_witness :
    Blockchain.valid_chain [genesis_block, block2] = .ok true :=
  (valid_chain_characterization.1 [genesis_block, block2] (by simp)).mpr (by
    intro i h
    cases i with
    | zero =>
        exact ⟨(by decide : block2.previous_hash = Blockchain.hash genesis_block),
               (by decide : Blockchain.valid_proof genesis_block.proof block2.proof
                  (Blockchain.hash genesis_block) = true)⟩
    | succ n => simp at h; omega)

set_option maxRecDepth 1000000 in
/-- C2 counterexample: mutating the last block's proof of a valid two-block
chain to a different value that also satisfies `valid_proof` leaves the
chain valid — `valid_chain` does not reject every single-proof mutation. -/
theorem valid_chain_last_proof_mutation :
    Blockchain.valid_chain [genesis_block, block2] = .ok true ∧
    Blockchain.valid_chain [genesis_block, block2'] = .ok true ∧
    block2' = { block2 with proof := block2'.proof } ∧
    block2'.proof ≠ block2.proof :=
  ⟨congrArg Except.ok (by decide), congrArg Except.ok (by decide), by decide, by decide⟩

/-- C3: the claim says `valid_chain` never raises on malformed candidate
chains; in fact `last_block = chain[0]` raises `IndexError` on the empty
chain (and a block dict missing `previous_hash`/`proof` would raise
`KeyError`), so malformed input is not treated as merely invalid. -/
theorem valid_chain_empty_raises :
    Blockchain.valid_chain ([] : List Block) = .error .indexError := rfl

/-- C4: an unreachable peer is not skipped — the `ConnectionError` raised by
`requests.get` propagates out of `resolve_conflicts` (first conjunct), while
a peer answering with a non-success status (here 404) is silently skipped
and the pass completes with the local chain untouched (second conjunct). -/
theorem resolve_conflicts_connError_raises :
    Blockchain.resolve_conflicts Blockchain.init [.connError] = .error .connectionError ∧
    Blockchain.resolve_conflicts Blockchain.init [.response 404 99 [block2]]
      = .ok (false, Blockchain.init) :=
  ⟨rfl, rfl⟩

/-- C10: `valid_chain` never checks the first block against the genesis
sentinels: any single-block chain is accepted, and any chain whose blocks
from the second onward pass the two link checks is accepted, with no
constraint on the first block beyond those checks. -/
theorem valid_chain_ignores_first_block :
    (∀ b : Block, Blockchain.valid_chain [b] = .ok true) ∧
    (∀ (b : Block) (rest : List Block), List.Chain' linkOK (b :: rest) →
      Blockchain.valid_chain (b :: rest) = .ok true) := by
  refine ⟨fun b => rfl, fun b rest h => ?_⟩
  simpa [Blockchain.valid_chain] using (valid_chain_from_iff b rest).mpr h

/-- C10 witness: a single-block chain that looks nothing like the genesis
block (negative index, transactions, zero proof, arbitrary `previous_hash`)
is accepted. -/
theorem valid_chain_ignores_first_block_witness :
    Blockchain.valid_chain [⟨-7, 99, [⟨"x", "y", 3⟩], 0, "junk"⟩] = .ok true :=
  valid_chain_ignores_first_block.2 ⟨-7, 99, [⟨"x", "y", 3⟩], 0, "junk"⟩ []
    (List.chain'_singleton _)

/-! ## Conflict resolution: analysis -/

/-- Any candidate the scanning loop ends up holding either is the one it
started with, or came from a 200/304 response, passed `valid_chain`, and
reported a length beyond the starting `max_length`. -/
theorem resolve_loop_sound (fs : List FetchResult) :
    ∀ (m : Int) (acc res : Option (List Block)),
      resolve_loop m acc fs = .ok res →
      res = acc ∨ ∃ s l ch, FetchResult.response s l ch ∈ fs ∧ (s = 200 ∨ s = 304) ∧
        m < l ∧ Blockchain.valid_chain ch = .ok true ∧ res = some ch := by
  induction fs with
  | nil =>
      intro m acc res h
      left
      exact (Except.ok.inj h).symm
  | cons f rest ih =>
      intro m acc res h
      cases f with
      | connError => exact absurd h (by simp [resolve_loop])
      | response s l ch =>
          rw [resolve_loop] at h
          by_cases hs : s = 200 ∨ s = 304
          · rw [if_pos hs] at h
            cases hvc : Blockchain.valid_chain ch with
            | error e => rw [hvc] at h; cases h
            | ok v =>
                rw [hvc] at h
                dsimp only at h
                by_cases hcond : m < l ∧ v = true
                · rw [if_pos hcond] at h
                  rcases ih l (some ch) res h with h1 | ⟨s', l', ch', hmem, hs', hlt, hval, hres⟩
                  · right
                    exact ⟨s, l, ch, List.mem_cons_self _ _, hs, hcond.1,
                      by rw [hvc, hcond.2], h1⟩
                  · right
                    exact ⟨s', l', ch', List.mem_cons_of_mem _ hmem, hs',
                      lt_trans hcond.1 hlt, hval, hres⟩
                · rw [if_neg hcond] at h
                  rcases ih m acc res h with h1 | ⟨s', l', ch', hmem, hs', hlt, hval, hres⟩
                  · exact Or.inl h1
                  · exact Or.inr ⟨s', l', ch', List.mem_cons_of_mem _ hmem, hs', hlt, hval, hres⟩
          · rw [if_neg hs] at h
            rcases ih m acc res h with h1 | ⟨s', l', ch', hmem, hs', hlt, hval, hres⟩
            · exact Or.inl h1
            · exact Or.inr ⟨s', l', ch', List.mem_cons_of_mem _ hmem, hs', hlt, hval, hres⟩

/-- C1 (amended): a completed `resolve_conflicts` pass that returns `False`
leaves the state untouched; one that returns `True` has replaced the chain
wholesale with a non-empty candidate that passed `valid_chain` and whose
*reported* length exceeded the local chain's length.  When every response
reports its candidate's true length — as the repository's own `/chain`
endpoint does — the local chain therefore never shrinks, and strictly grows
on every replacement.  (Against a peer that misreports its length the code
can shorten the chain: `resolve_conflicts_shortens_on_misreported_length`.) -/
theorem resolve_conflicts_spec (self : Blockchain) (fetches : List FetchResult)
    (r : Bool) (self' : Blockchain)
    (hrun : Blockchain.resolve_conflicts self fetches = .ok (r, self')) :
    (r = false → self' = self) ∧
    (r = true → ∃ status length chain,
      FetchResult.response status length chain ∈ fetches ∧
      (status = 200 ∨ status = 304) ∧
      (self.chain.length : Int) < length ∧
      Blockchain.valid_chain chain = .ok true ∧
      chain ≠ [] ∧
      self' = { self with chain := chain }) ∧
    ((∀ status length chain, FetchResult.response status length chain ∈ fetches →
        length = (chain.length : Int)) →
      self.chain.length ≤ self'.chain.length ∧
      (r = true → self.chain.length < self'.chain.length)) := by
  rw [Blockchain.resolve_conflicts] at hrun
  cases hloop : resolve_loop (self.chain.length : Int) none fetches with
  | error e => rw [hloop] at hrun; cases hrun
  | ok res =>
      rw [hloop] at hrun
      cases res with
      | none =>
          injection hrun with hpair
          injection hpair with h1 h2
          refine ⟨fun _ => h2.symm, fun htr => absurd (h1.trans htr) Bool.false_ne_true, ?_⟩
          intro _
          rw [← h2]
          exact ⟨le_refl _, fun htr => absurd (h1.trans htr) Bool.false_ne_true⟩
      | some nc =>
          dsimp only at hrun
          by_cases hemp : nc.isEmpty
          · rw [if_pos hemp] at hrun
            injection hrun with hpair
            injection hpair with h1 h2
            refine ⟨fun _ => h2.symm, fun htr => absurd (h1.trans htr) Bool.false_ne_true, ?_⟩
            intro _
            rw [← h2]
            exact ⟨le_refl _, fun htr => absurd (h1.trans htr) Bool.false_ne_true⟩
          · rw [if_neg hemp] at hrun
            injection hrun with hpair
            injection hpair with h1 h2
            have hne : nc ≠ [] := by
              intro hnil
              rw [hnil] at hemp
              exact hemp rfl
            rcases resolve_loop_sound fetches (self.chain.length : Int) none (some nc) hloop with
              hcontra | ⟨s, l, ch, hmem, hs', hlt, hval, hres⟩
            · cases hcontra
            · have hch : ch = nc := (Option.some.inj hres).symm
              subst hch
              refine ⟨fun hrf => absurd (h1.trans hrf) (by simp),
                fun _ => ⟨s, l, ch, hmem, hs', hlt, hval, hne, h2.symm⟩, ?_⟩
              intro hh
              have hlen : l = (ch.length : Int) := hh s l ch hmem
              have hltn : self.chain.length < ch.length := by
                rw [hlen] at hlt
                exact_mod_cast hlt
              have hself : self'.chain = ch := by rw [← h2]
              rw [hself]
              exact ⟨le_of_lt hltn, fun _ => hltn⟩

/-- C1 witness: a ledger with an empty chain adopts a reported-length-1
valid single-block candidate from a 200 response; the specification then
exhibits the response that caused the adoption. -/
theorem resolve_conflicts_spec_witness :
    ∃ status length chain,
      FetchResult.response status length chain ∈ [FetchResult.response 200 1 [genesis_block]] ∧
      (status = 200 ∨ status = 304) ∧
      (((Blockchain.mk [] [] ∅).chain.length : Nat) : Int) < length ∧
      Blockchain.valid_chain chain = .ok true ∧
      chain ≠ [] ∧
      (⟨[genesis_block], [], ∅⟩ : Blockchain) = { Blockchain.mk [] [] ∅ with chain := chain } :=
  (resolve_conflicts_spec ⟨[], [], ∅⟩ [.response 200 1 [genesis_block]] true
    ⟨[genesis_block], [], ∅⟩ rfl).2.1 rfl

/-- C1 counterexample: the adoption test compares the peer's *reported*
length, not the fetched chain's length, so a peer reporting a large length
for a short valid chain makes `resolve_conflicts` replace a longer local
chain with a shorter one — the local chain is shortened and the pass still
returns `True`. -/
theorem resolve_conflicts_shortens_on_misreported_length :
    Blockchain.resolve_conflicts ⟨[genesis_block, block2], [], ∅⟩
        [.response 200 100 [genesis_block]]
      = .ok (true, ⟨[genesis_block], [], ∅⟩) ∧
    ([genesis_block] : List Block).length < ([genesis_block, block2] : List Block).length :=
  ⟨rfl, by decide⟩

/-! ## Block creation and the ledger lifecycle -/

/-- A completed `resolve_conflicts` pass either leaves the state alone or
swaps in a non-empty chain, touching nothing else. -/
theorem resolve_conflicts_state_cases (self : Blockchain) (fetches : List FetchResult)
    (r : Bool) (self' : Blockchain)
    (h : Blockchain.resolve_conflicts self fetches = .ok (r, self')) :
    self' = self ∨ ∃ nc, nc ≠ [] ∧ self' = { self with chain := nc } := by
  rw [Blockchain.resolve_conflicts] at h
  cases hloop : resolve_loop (self.chain.length : Int) none fetches with
  | error e => rw [hloop] at h; cases h
  | ok res =>
      rw [hloop] at h
      cases res with
      | none =>
          injection h with hpair
          injection hpair with _ h2
          exact Or.inl h2.symm
      | some nc =>
          dsimp only at h
          by_cases hemp : nc.isEmpty
          · rw [if_pos hemp] at h
            injection h with hpair
            injection hpair with _ h2
            exact Or.inl h2.symm
          · rw [if_neg hemp] at h
            injection h with hpair
            injection hpair with _ h2
            refine Or.inr ⟨nc, fun hnil => ?_, h2.symm⟩
            rw [hnil] at hemp
            exact hemp rfl

/-- The block `new_block` constructs, given the value `ph` that the
`previous_hash or self.hash(self.last_block)` expression evaluated to. -/
def built_block (self : Blockchain) (proof : Int) (now : Int) (ph : String) : Block :=
  { index := (self.chain.length : Int) + 1
    timestamp := if self.chain.isEmpty then 0 else now
    transactions := self.transactions
    proof := proof
    previous_hash := ph }

/-- C5 (amended): on any ledger state with a non-empty chain, `new_block`
succeeds and returns the appended block: index `len(chain) + 1`, the pending
buffer as transactions, the supplied proof, and as `previous_hash` the
supplied value when it is given and non-empty, and otherwise (argument
omitted or `""`, both falsy under Python's `or`) the recomputed hash of the
current last block; the pending buffer is cleared and the block appended. -/
theorem new_block_spec (self : Blockchain) (proof : Int) (previous_hash : Option String)
    (now : Int) (h : self.chain ≠ []) :
    ∃ (b : Block) (self' : Blockchain) (lb : Block),
      self.chain.getLast? = some lb ∧
      Blockchain.new_block self proof previous_hash now = .ok (b, self') ∧
      b.index = (self.chain.length : Int) + 1 ∧
      b.timestamp = now ∧
      b.transactions = self.transactions ∧
      b.proof = proof ∧
      b.previous_hash = (match previous_hash with
        | some s => if s = "" then Blockchain.hash lb else s
        | none => Blockchain.hash lb) ∧
      self'.transactions = [] ∧
      self'.chain = self.chain ++ [b] ∧
      self'.nodes = self.nodes := by
  have hlast : self.chain.getLast? = some (self.chain.getLast h) :=
    List.getLast?_eq_getLast self.chain h
  have hlb : Blockchain.last_block self = .ok (self.chain.getLast h) := by
    rw [Blockchain.last_block, hlast]
  have hne : self.chain.isEmpty = false := by
    cases hc : self.chain with
    | nil => exact absurd hc h
    | cons a l => rfl
  cases previous_hash with
  | none =>
      refine ⟨built_block self proof now (Blockchain.hash (self.chain.getLast h)),
        ⟨self.chain ++ [built_block self proof now (Blockchain.hash (self.chain.getLast h))],
          [], self.nodes⟩,
        self.chain.getLast h, hlast, ?_, rfl, by simp [built_block, hne], rfl, rfl, rfl,
        rfl, rfl, rfl⟩
      rw [Blockchain.new_block, hlb]
      rfl
  | some s =>
      by_cases hs : s = ""
      · subst hs
        refine ⟨built_block self proof now (Blockchain.hash (self.chain.getLast h)),
          ⟨self.chain ++ [built_block self proof now (Blockchain.hash (self.chain.getLast h))],
            [], self.nodes⟩,
          self.chain.getLast h, hlast, ?_, rfl, by simp [built_block, hne], rfl, rfl, rfl,
          rfl, rfl, rfl⟩
        rw [Blockchain.new_block, hlb]
        rfl
      · refine ⟨built_block self proof now s,
          ⟨self.chain ++ [built_block self proof now s], [], self.nodes⟩,
          self.chain.getLast h, hlast, ?_, rfl, by simp [built_block, hne], rfl, rfl,
          by simp [built_block, if_neg hs], rfl, rfl, rfl⟩
        rw [Blockchain.new_block]
        simp only [if_neg hs]
        rfl

/-- C5 witness: `new_block` on the fresh ledger with proof 42, supplied
`previous_hash` `"x"` and clock value 9. -/
theorem new_block_spec_witness :
    ∃ (b : Block) (self' : Blockchain) (lb : Block),
      Blockchain.init.chain.getLast? = some lb ∧
      Blockchain.new_block Blockchain.init 42 (some "x") 9 = .ok (b, self') ∧
      b.index = (Blockchain.init.chain.length : Int) + 1 ∧
      b.timestamp = 9 ∧
      b.transactions = Blockchain.init.transactions ∧
      b.proof = 42 ∧
      b.previous_hash = (match (some "x" : Option String) with
        | some s => if s = "" then Blockchain.hash lb else s
        | none => Blockchain.hash lb) ∧
      self'.transactions = [] ∧
      self'.chain = Blockchain.init.chain ++ [b] ∧
      self'.nodes = Blockchain.init.nodes :=
  new_block_spec Blockchain.init 42 (some "x") 9 (by decide)

set_option maxRecDepth 1000000 in
/-- C5 counterexample: the supplied `previous_hash` `""` is *not* used —
Python's `previous_hash or self.hash(self.last_block)` treats the empty
string as falsy, so the block stores the recomputed genesis hash instead of
the supplied value. -/
theorem new_block_empty_string_previous_hash :
    (Blockchain.new_block Blockchain.init 7 (some "") 5).toOption.map
        (fun p => p.1.previous_hash) = some genesisHex ∧
    genesisHex ≠ "" :=
  ⟨by decide, by decide⟩

/-- A successful `new_block` call always produces the state with the buffer
cleared and the returned block appended. -/
theorem new_block_ok_shape (self : Blockchain) (p : Int) (ph : Option String) (now : Int)
    (b : Block) (self' : Blockchain)
    (hrun : Blockchain.new_block self p ph now = .ok (b, self')) :
    self' = { self with transactions := [], chain := self.chain ++ [b] } := by
  rw [Blockchain.new_block.eq_def] at hrun
  cases ph with
  | none =>
      dsimp only at hrun
      cases hl : Blockchain.last_block self with
      | error e => rw [hl] at hrun; cases hrun
      | ok lb =>
          rw [hl] at hrun
          injection hrun with hpair
          injection hpair with h1 h2
          rw [← h2, ← h1]
  | some s =>
      dsimp only at hrun
      by_cases hs : s = ""
      · rw [if_pos hs] at hrun
        cases hl : Blockchain.last_block self with
        | error e => rw [hl] at hrun; cases hrun
        | ok lb =>
            rw [hl] at hrun
            injection hrun with hpair
            injection hpair with h1 h2
            rw [← h2, ← h1]
      · rw [if_neg hs] at hrun
        injection hrun with hpair
        injection hpair with h1 h2
        rw [← h2, ← h1]

/-- C7: a fresh ledger's chain is exactly the genesis block (index 1,
timestamp sentinel 0, no transactions, proof 1, `previous_hash` sentinel
`"1"`), every operation preserves non-emptiness of the chain, and on a
non-empty chain `last_block` succeeds. -/
theorem init_genesis_and_nonempty_preserved :
    Blockchain.init.chain = [genesis_block] ∧
    genesis_block = ⟨1, 0, [], 1, "1"⟩ ∧
    (∀ (self : Blockchain) (sender recipient : String) (amount i : Int) (self' : Blockchain),
      Blockchain.new_transaction self sender recipient amount = .ok (i, self') →
      self'.chain = self.chain) ∧
    (∀ (self : Blockchain) (proof : Int) (ph : Option String) (now : Int)
        (b : Block) (self' : Blockchain),
      Blockchain.new_block self proof ph now = .ok (b, self') → self'.chain ≠ []) ∧
    (∀ (self : Blockchain) (fetches : List FetchResult) (r : Bool) (self' : Blockchain),
      Blockchain.resolve_conflicts self fetches = .ok (r, self') →
      self.chain ≠ [] → self'.chain ≠ []) ∧
    (∀ (self : Blockchain) (addr : String) (self' : Blockchain),
      Blockchain.register_node self addr = .ok self' → self'.chain = self.chain) ∧
    (∀ self : Blockchain, self.chain ≠ [] → ∃ b, Blockchain.last_block self = .ok b) := by
  refine ⟨rfl, rfl, ?_, ?_, ?_, ?_, ?_⟩
  · intro self sender recipient amount i self' hrun
    rw [Blockchain.new_transaction] at hrun
    cases hl : Blockchain.last_block
        { self with transactions := self.transactions ++ [⟨sender, recipient, amount⟩] } with
    | error e => rw [hl] at hrun; cases hrun
    | ok lb =>
        rw [hl] at hrun
        injection hrun with hpair
        injection hpair with _ h2
        rw [← h2]
  · intro self proof ph now b self' hrun
    rw [new_block_ok_shape self proof ph now b self' hrun]
    simp
  · intro self fetches r self' hrun hne
    rcases resolve_conflicts_state_cases self fetches r self' hrun with h | ⟨nc, hnc, h⟩
    · rw [h]; exact hne
    · rw [h]; exact hnc
  · intro self addr self' hrun
    rw [Blockchain.register_node] at hrun
    cases hu : urlparse_netloc_path addr with
    | error e => rw [hu] at hrun; cases hrun
    | ok np =>
        obtain ⟨netloc, path⟩ := np
        rw [hu] at hrun
        replace hrun :
            (if netloc ≠ "" then
              pure { self with nodes := insert netloc self.nodes }
            else if path ≠ "" then
              pure { self with nodes := insert path self.nodes }
            else (Except.error PyErr.valueError : Except PyErr Blockchain)) =
              Except.ok self' := hrun
        by_cases h1 : netloc ≠ ""
        · rw [if_pos h1] at hrun
          injection hrun with h2
          rw [← h2]
        · rw [if_neg h1] at hrun
          by_cases h2 : path ≠ ""
          · rw [if_pos h2] at hrun
            injection hrun with h3
            rw [← h3]
          · rw [if_neg h2] at hrun
            cases hrun
  · intro self h
    exact ⟨self.chain.getLast h, by rw [Blockchain.last_block, List.getLast?_eq_getLast self.chain h]⟩

/-- C7 witness: the preservation clauses applied to concrete runs on the
fresh ledger — a transaction, a block, an empty resolution pass, a
registration, and `last_block` on the genesis chain. -/
theorem init_genesis_and_nonempty_preserved_witness :
    (Blockchain.mk [genesis_block] [⟨"a", "b", 2⟩] ∅).chain = Blockchain.init.chain ∧
    (Blockchain.mk [genesis_block, built_block Blockchain.init 42 9 "x"] [] ∅).chain ≠ [] ∧
    (Blockchain.init.chain ≠ [] → Blockchain.init.chain ≠ []) ∧
    (Blockchain.mk [genesis_block] [] {"hello"}).chain = Blockchain.init.chain ∧
    (∃ b, Blockchain.last_block Blockchain.init = .ok b) :=
  ⟨init_genesis_and_nonempty_preserved.2.2.1 Blockchain.init "a" "b" 2 2
      ⟨[genesis_block], [⟨"a", "b", 2⟩], ∅⟩ rfl,
   init_genesis_and_nonempty_preserved.2.2.2.1 Blockchain.init 42 (some "x") 9
      (built_block Blockchain.init 42 9 "x")
      ⟨[genesis_block, built_block Blockchain.init 42 9 "x"], [], ∅⟩ rfl,
   init_genesis_and_nonempty_preserved.2.2.2.2.1 Blockchain.init [] false Blockchain.init rfl,
   init_genesis_and_nonempty_preserved.2.2.2.2.2.1 Blockchain.init "hello"
      ⟨[genesis_block], [], {"hello"}⟩ rfl,
   init_genesis_and_nonempty_preserved.2.2.2.2.2.2 Blockchain.init (by decide)⟩

/-! ## Canonical hashing: key order and digest shape -/

/-- Characters with equal code points are equal. -/
theorem char_toNat_inj {a b : Char} (h : a.toNat = b.toNat) : a = b :=
  Char.ext (UInt32.ext h)

/-- The code-point order is total. -/
theorem charListLe_total : ∀ as bs : List Char,
    charListLe as bs = true ∨ charListLe bs as = true := by
  intro as
  induction as with
  | nil => intro bs; left; rfl
  | cons a as ih =>
      intro bs
      cases bs with
      | nil => right; rfl
      | cons b bs =>
          by_cases h1 : a.toNat < b.toNat
          · left; simp [charListLe, h1]
          · by_cases h2 : b.toNat < a.toNat
            · right; simp [charListLe, h1, h2]
            · rcases ih bs with h | h
              · left; simp [charListLe, h1, h2, h]
              · right; simp [charListLe, h1, h2, h]

/-- The code-point order is transitive. -/
theorem charListLe_trans : ∀ as bs cs : List Char,
    charListLe as bs = true → charListLe bs cs = true → charListLe as cs = true := by
  intro as
  induction as with
  | nil => intro bs cs _ _; rfl
  | cons a as ih =>
      intro bs cs hab hbc
      cases bs with
      | nil => exact absurd hab (by simp [charListLe])
      | cons b bs =>
          cases cs with
          | nil => exact absurd hbc (by simp [charListLe])
          | cons c cs =>
              by_cases hab1 : a.toNat < b.toNat
              · by_cases hbc1 : b.toNat < c.toNat
                · simp [charListLe, show a.toNat < c.toNat by omega]
                · by_cases hbc2 : c.toNat < b.toNat
                  · exact absurd hbc (by simp [charListLe, hbc1, hbc2])
                  · simp [charListLe, show a.toNat < c.toNat by omega]
              · by_cases hab2 : b.toNat < a.toNat
                · exact absurd hab (by simp [charListLe, hab1, hab2])
                · by_cases hbc1 : b.toNat < c.toNat
                  · simp [charListLe, show a.toNat < c.toNat by omega]
                  · by_cases hbc2 : c.toNat < b.toNat
                    · exact absurd hbc (by simp [charListLe, hbc1, hbc2])
                    · have h3 : ¬a.toNat < c.toNat := by omega
                      have h4 : ¬c.toNat < a.toNat := by omega
                      simp only [charListLe, if_neg hab1, if_neg hab2] at hab
                      simp only [charListLe, if_neg hbc1, if_neg hbc2] at hbc
                      simp only [charListLe, if_neg h3, if_neg h4]
                      exact ih bs cs hab hbc

/-- The code-point order is antisymmetric. -/
theorem charListLe_antisymm : ∀ as bs : List Char,
    charListLe as bs = true → charListLe bs as = true → as = bs := by
  intro as
  induction as with
  | nil =>
      intro bs _ hba
      cases bs with
      | nil => rfl
      | cons b bs => exact absurd hba (by simp [charListLe])
  | cons a as ih =>
      intro bs hab hba
      cases bs with
      | nil => exact absurd hab (by simp [charListLe])
      | cons b bs =>
          by_cases h1 : a.toNat < b.toNat
          · exact absurd hba (by simp [charListLe, show ¬b.toNat < a.toNat by omega, h1])
          · by_cases h2 : b.toNat < a.toNat
            · exact absurd hab (by simp [charListLe, h1, h2])
            · have hc : a = b := char_toNat_inj (by omega)
              subst hc
              simp only [charListLe, if_neg h1] at hab hba
              rw [ih bs hab hba]

/-- Strict key order: keys ordered and distinct. -/
def keyLT {α : Type} (a b : String × α) : Prop := keyLE a b ∧ a.1 ≠ b.1

instance {α : Type} : IsTotal (String × α) keyLE :=
  ⟨fun a b => charListLe_total a.1.data b.1.data⟩

instance {α : Type} : IsTrans (String × α) keyLE :=
  ⟨fun a b c hab hbc => charListLe_trans a.1.data b.1.data c.1.data hab hbc⟩

instance {α : Type} : IsAntisymm (String × α) (@keyLT α) :=
  ⟨fun a b h1 h2 =>
    absurd (String.ext (charListLe_antisymm a.1.data b.1.data h1.1 h2.1)) h1.2⟩

/-- Sorting by key is insensitive to the input order when the keys are
distinct: any two permuted entry lists with duplicate-free keys sort to the
same list.  This is what makes `sort_keys=True` a canonical form. -/
theorem insertionSort_keyLE_eq {α : Type} (l₁ l₂ : List (String × α)) (hp : l₁.Perm l₂)
    (hn : (l₁.map Prod.fst).Nodup) :
    List.insertionSort keyLE l₁ = List.insertionSort keyLE l₂ := by
  have p₁ := List.perm_insertionSort keyLE l₁
  have p₂ := List.perm_insertionSort keyLE l₂
  have p : (List.insertionSort keyLE l₁).Perm (List.insertionSort keyLE l₂) :=
    p₁.trans (hp.trans p₂.symm)
  have n₁ : ((List.insertionSort keyLE l₁).map Prod.fst).Nodup :=
    ((p₁.map Prod.fst).nodup_iff).mpr hn
  have n₂ : ((List.insertionSort keyLE l₂).map Prod.fst).Nodup :=
    ((p₂.map Prod.fst).nodup_iff).mpr (((hp.map Prod.fst).nodup_iff).mp hn)
  have s₁ : List.Pairwise (@keyLT α) (List.insertionSort keyLE l₁) :=
    ((List.sorted_insertionSort keyLE l₁).and (List.pairwise_map.mp n₁)).imp
      (fun hand => ⟨hand.1, hand.2⟩)
  have s₂ : List.Pairwise (@keyLT α) (List.insertionSort keyLE l₂) :=
    ((List.sorted_insertionSort keyLE l₂).and (List.pairwise_map.mp n₂)).imp
      (fun hand => ⟨hand.1, hand.2⟩)
  exact List.eq_of_perm_of_sorted p s₁ s₂

/-- `beBytes k v` has exactly `k` bytes. -/
theorem beBytes_length (k : Nat) : ∀ v : Nat, (beBytes k v).length = k := by
  induction k with
  | zero => intro v; rfl
  | succ n ih => intro v; simp [beBytes, ih]

/-- One compression step always yields 8 words. -/
theorem shaCompress_length (hs ws : List Nat) : (shaCompress hs ws).length = 8 := rfl

/-- Folding compression steps over any chunk list preserves the 8-word shape. -/
theorem sha_foldl_length (chunks : List (List Nat)) :
    ∀ hs : List Nat, hs.length = 8 →
      (chunks.foldl (fun hs c => shaCompress hs (toWords c)) hs).length = 8 := by
  induction chunks with
  | nil => intro hs h; exact h
  | cons c cs ih => intro hs _; exact ih _ (shaCompress_length hs (toWords c))

/-- A SHA-256 digest is 32 bytes. -/
theorem sha256_length (msg : List Nat) : (sha256 msg).length = 32 := by
  have haux : ∀ l : List Nat,
      (l.foldr (fun w acc => beBytes 4 w ++ acc) []).length = 4 * l.length := by
    intro l
    induction l with
    | nil => rfl
    | cons x xs ih => simp [List.foldr, beBytes_length, ih]; omega
  show (((chunk64 (shaPad msg)).foldl (fun hs c => shaCompress hs (toWords c))
      shaH0).foldr (fun w acc => beBytes 4 w ++ acc) []).length = 32
  rw [haux, sha_foldl_length (chunk64 (shaPad msg)) shaH0 rfl]

/-- A SHA-256 hex digest is 64 characters. -/
theorem sha256Hex_length (s : String) : (sha256Hex s).length = 64 := by
  have haux : ∀ bs : List Nat,
      (bs.foldr (fun b acc => hexChar (b / 16) :: hexChar (b % 16) :: acc) []).length
        = 2 * bs.length := by
    intro bs
    induction bs with
    | nil => rfl
    | cons x xs ih => simp [List.foldr, ih]; omega
  show (String.mk ((sha256 (utf8 s)).foldr
      (fun b acc => hexChar (b / 16) :: hexChar (b % 16) :: acc) [])).length = 64
  rw [String.length, haux, sha256_length]

/-- C9: `hash` is the SHA-256 hex digest (64 hex characters, 256 bits) of
the block dict's key-sorted canonical serialization, and the canonical
serialization — hence the digest — is invariant under permuting the entry
order of a dict with duplicate-free keys: structurally equal objects hash
identically regardless of construction order.  (Determinism is inherent:
`hash` is a function of the block's field values.) -/
theorem hash_canonical :
    (∀ b : Block,
      Blockchain.hash b = sha256Hex (dictDumps dumpJVal b.dict) ∧
      (Blockchain.hash b).length = 64) ∧
    (∀ (kvs₁ kvs₂ : List (String × JVal)), kvs₁.Perm kvs₂ →
      (kvs₁.map Prod.fst).Nodup →
      dictDumps dumpJVal kvs₁ = dictDumps dumpJVal kvs₂ ∧ dictHash kvs₁ = dictHash kvs₂) := by
  constructor
  · intro b
    exact ⟨rfl, sha256Hex_length _⟩
  · intro kvs₁ kvs₂ hp hn
    have hd : dictDumps dumpJVal kvs₁ = dictDumps dumpJVal kvs₂ := by
      rw [dictDumps, dictDumps, insertionSort_keyLE_eq kvs₁ kvs₂ hp hn]
    exact ⟨hd, by rw [dictHash, dictHash, hd]⟩

/-- C9 witness: the genesis block's entry list in construction order and a
reordering of it serialize and hash identically. -/
theorem hash_canonical_witness :
    dictDumps dumpJVal genesis_block.dict
      = dictDumps dumpJVal genesis_block.dict.reverse ∧
    dictHash genesis_block.dict = dictHash genesis_block.dict.reverse :=
  hash_canonical.2 genesis_block.dict genesis_block.dict.reverse
    (by decide) (by decide)

/-! ## Proof of work -/

/-- C6: `valid_proof` holds iff the SHA-256 hex digest of the concatenated
decimal texts of the two proofs and the last hash starts with four `'0'`
characters; and `proof_of_work`, whenever a satisfying proof exists for the
last block's `(proof, hash)` pair, returns the smallest non-negative integer
satisfying `valid_proof` for that pair. -/
theorem valid_proof_iff_and_pow_minimal :
    (∀ (last_proof proof : Int) (last_hash : String),
      Blockchain.valid_proof last_proof proof last_hash = true ↔
        ∀ c ∈ (sha256Hex (toString last_proof ++ toString proof ++ last_hash)).data.take 4,
          c = '0') ∧
    (∀ (self : Blockchain) (h : self.chain ≠ [])
        (hex : ∃ p : Nat, Blockchain.valid_proof (self.chain.getLast h).proof p
          (Blockchain.hash (self.chain.getLast h)) = true),
      Blockchain.valid_proof (self.chain.getLast h).proof
          (Blockchain.proof_of_work self h hex)
          (Blockchain.hash (self.chain.getLast h)) = true ∧
      ∀ q : Nat, q < Blockchain.proof_of_work self h hex →
        Blockchain.valid_proof (self.chain.getLast h).proof q
          (Blockchain.hash (self.chain.getLast h)) = false) := by
  constructor
  · intro lp p lh
    show ((sha256Hex (toString lp ++ toString p ++ lh)).take 4 == "0000") = true ↔ _
    constructor
    · intro hbeq
      intro c hc
      have heq : (sha256Hex (toString lp ++ toString p ++ lh)).take 4 = "0000" :=
        eq_of_beq hbeq
      have hdata : (sha256Hex (toString lp ++ toString p ++ lh)).data.take 4
          = ['0', '0', '0', '0'] := by
        rw [← String.data_take, heq]
      rw [hdata] at hc
      simp at hc
      exact hc
    · intro hall
      have hlen : ((sha256Hex (toString lp ++ toString p ++ lh)).data.take 4).length = 4 := by
        rw [List.length_take]
        have h64 := sha256Hex_length (toString lp ++ toString p ++ lh)
        rw [String.length] at h64
        omega
      have hrep : (sha256Hex (toString lp ++ toString p ++ lh)).data.take 4
          = List.replicate 4 '0' :=
        List.eq_replicate_iff.mpr ⟨hlen, hall⟩
      have htake : (sha256Hex (toString lp ++ toString p ++ lh)).take 4 = "0000" :=
        String.ext (by rw [String.data_take, hrep]; rfl)
      rw [htake]
      rfl
  · intro self h hex
    refine ⟨Nat.find_spec hex, fun q hq => ?_⟩
    have hmin := Nat.find_min hex hq
    rw [Bool.not_eq_true] at hmin
    exact hmin

/-- The fresh ledger's chain is non-empty. -/
theorem init_chain_ne : Blockchain.init.chain ≠ [] := by decide

set_option maxRecDepth 1000000 in
/-- A proof of work exists for the genesis block: 56868 is a solution. -/
theorem init_pow_exists : ∃ p : Nat, Blockchain.valid_proof
    (Blockchain.init.chain.getLast init_chain_ne).proof p
    (Blockchain.hash (Blockchain.init.chain.getLast init_chain_ne)) = true :=
  ⟨56868, by decide⟩

/-- C6 witness: `proof_of_work` on the fresh ledger — whose genesis pair
admits the solution 56868 — satisfies `valid_proof` and is minimal. -/
theorem valid_proof_iff_and_pow_minimal_witness :
    Blockchain.valid_proof (Blockchain.init.chain.getLast init_chain_ne).proof
        (Blockchain.proof_of_work Blockchain.init init_chain_ne init_pow_exists)
        (Blockchain.hash (Blockchain.init.chain.getLast init_chain_ne)) = true ∧
    ∀ q : Nat, q < Blockchain.proof_of_work Blockchain.init init_chain_ne init_pow_exists →
      Blockchain.valid_proof (Blockchain.init.chain.getLast init_chain_ne).proof q
        (Blockchain.hash (Blockchain.init.chain.getLast init_chain_ne)) = false :=
  valid_proof_iff_and_pow_minimal.2 Blockchain.init init_chain_ne init_pow_exists

/-! ## Node registration: specification -/

/-- C8 (amended): `register_node` inserts `urlparse(address).netloc` when it
is non-empty, else `urlparse(address).path` when that is non-empty, and
raises `ValueError` when both are empty; registration is idempotent (the
peer set collapses duplicates), and the scenario inputs `"127.0.0.1:5000"`
and `"http://127.0.0.1:5000/"` both normalize to the single entry
`"127.0.0.1:5000"`.  (For a bare `host:port` whose host begins with a
letter, the parsed path is only the port digits — see
`register_node_localhost_counterexample` — so the inserted entry is not
always the bare `host:port` string itself.) -/
theorem register_node_spec :
    (∀ (self : Blockchain) (addr netloc path : String),
      urlparse_netloc_path addr = .ok (netloc, path) →
        (netloc ≠ "" → Blockchain.register_node self addr =
          .ok { self with nodes := insert netloc self.nodes }) ∧
        (netloc = "" → path ≠ "" → Blockchain.register_node self addr =
          .ok { self with nodes := insert path self.nodes }) ∧
        (netloc = "" → path = "" →
          Blockchain.register_node self addr = .error .valueError)) ∧
    (∀ (self : Blockchain) (addr : String) (self' : Blockchain),
      Blockchain.register_node self addr = .ok self' →
      Blockchain.register_node self' addr = .ok self') ∧
    ((do
        let st1 ← Blockchain.register_node Blockchain.init "127.0.0.1:5000"
        Blockchain.register_node st1 "http://127.0.0.1:5000/").toOption.map Blockchain.nodes
      = some {"127.0.0.1:5000"} ∧
     ({"127.0.0.1:5000"} : Finset String).card = 1) := by
  have part1 : ∀ (self : Blockchain) (addr netloc path : String),
      urlparse_netloc_path addr = .ok (netloc, path) →
        (netloc ≠ "" → Blockchain.register_node self addr =
          .ok { self with nodes := insert netloc self.nodes }) ∧
        (netloc = "" → path ≠ "" → Blockchain.register_node self addr =
          .ok { self with nodes := insert path self.nodes }) ∧
        (netloc = "" → path = "" →
          Blockchain.register_node self addr = .error .valueError) := by
    intro self addr netloc path hu
    have hbody : Blockchain.register_node self addr =
        (if netloc ≠ "" then
          pure { self with nodes := insert netloc self.nodes }
        else if path ≠ "" then
          pure { self with nodes := insert path self.nodes }
        else (Except.error PyErr.valueError : Except PyErr Blockchain)) := by
      rw [Blockchain.register_node, hu]
      rfl
    refine ⟨fun h1 => ?_, fun h1 h2 => ?_, fun h1 h2 => ?_⟩
    · rw [hbody, if_pos h1]; rfl
    · rw [hbody, if_neg (by simp [h1]), if_pos h2]; rfl
    · rw [hbody, if_neg (by simp [h1]), if_neg (by simp [h2])]
  refine ⟨part1, ?_, by decide, by decide⟩
  intro self addr self' hrun
  cases hu : urlparse_netloc_path addr with
  | error e =>
      rw [Blockchain.register_node, hu] at hrun
      cases hrun
  | ok np =>
      obtain ⟨netloc, path⟩ := np
      by_cases h1 : netloc ≠ ""
      · have ha := ((part1 self addr netloc path hu).1) h1
        rw [ha] at hrun
        injection hrun with hself
        have hb := ((part1 self' addr netloc path hu).1) h1
        rw [hb, ← hself]
        simp [Finset.insert_idem]
      · by_cases h2 : path ≠ ""
        · have ha := ((part1 self addr netloc path hu).2.1) (by simpa using h1) h2
          rw [ha] at hrun
          injection hrun with hself
          have hb := ((part1 self' addr netloc path hu).2.1) (by simpa using h1) h2
          rw [hb, ← hself]
          simp [Finset.insert_idem]
        · have ha := ((part1 self addr netloc path hu).2.2) (by simpa using h1) (by simpa using h2)
          rw [ha] at hrun
          cases hrun

/-- C8 witness: the specification applied to `"http://a/"`, whose parsed
netloc is `"a"` and path `"/"`. -/
theorem register_node_spec_witness :
    (("a" : String) ≠ "" → Blockchain.register_node Blockchain.init "http://a/" =
      .ok { Blockchain.init with nodes := insert "a" Blockchain.init.nodes }) ∧
    (("a" : String) = "" → ("/" : String) ≠ "" →
      Blockchain.register_node Blockchain.init "http://a/" =
        .ok { Blockchain.init with nodes := insert "/" Blockchain.init.nodes }) ∧
    (("a" : String) = "" → ("/" : String) = "" →
      Blockchain.register_node Blockchain.init "http://a/" = .error .valueError) :=
  register_node_spec.1 Blockchain.init "http://a/" "a" "/" rfl

/-- C8 counterexample: for the bare host:port address `"localhost:5000"`,
`urlparse` reads `localhost` as a URL scheme, so `register_node` inserts
only the port digits `"5000"` — not the canonical `host:port` entry the
claim describes. -/
theorem register_node_localhost_counterexample :
    (Blockchain.register_node Blockchain.init "localhost:5000").toOption.map Blockchain.nodes
      = some {"5000"} ∧
    ¬ ((Blockchain.register_node Blockchain.init "localhost:5000").toOption.map Blockchain.nodes
      = some {"localhost:5000"}) :=
  ⟨by decide, by decide⟩
